import Mathlib

/-!
Verification development for the d3-visualization helpers
(`plot-d3-sunburst.js`, `plotHistogram`, `plotSankey`).

The JavaScript sources are embedded shallowly:
  * numbers are modelled as exact rationals (`ℚ`);
  * the input tree of `plotSunburst` is a rose tree (`Tree`/`TreeList`,
    a mutual inductive so that all recursions are structural);
  * `d3.hierarchy(data).sum(..).sort(..)` and `d3.partition()` are
    translated into `Tree.value`, `sortTree` and `partT`/`partTL`;
  * DOM object identity of a partition node is modelled by its access
    path (`PNode.key`, the list of child indices from the root), and the
    parent chain of a node by the accumulated `PNode.anc` list;
  * the partition size `[2 * Math.PI, radius * radius]` is kept symbolic
    as parameters `sx`/`sy` (the angular extent and squared radius);
  * stateful pieces (the page-global `totalSize`, the mouseleave
    transition) are explicit state-passing functions.
-/

namespace D3

/- Input data of `plotSunburst`: an object `{name, size, children}`.
`TreeList` is the (mutually inductive) list of children, so that every
function on trees below is structurally recursive. -/
mutual
inductive Tree where
  | mk (name : String) (size : ℚ) (children : TreeList)
inductive TreeList where
  | nil
  | cons (t : Tree) (ts : TreeList)
end

/- Node value of `d3.hierarchy(data).sum(function (d) {return d.size;})`:
the node's own `size` plus the values of all children. -/
mutual
def Tree.value : Tree → ℚ
  | .mk _ s cs => s + TreeList.valueSum cs
def TreeList.valueSum : TreeList → ℚ
  | .nil => 0
  | .cons t ts => Tree.value t + TreeList.valueSum ts
end

/- Height of a hierarchy node as d3 computes it: 0 for leaves, one more
than the maximal child height otherwise. -/
mutual
def Tree.height : Tree → ℕ
  | .mk _ _ cs => TreeList.heightMax cs
def TreeList.heightMax : TreeList → ℕ
  | .nil => 0
  | .cons t ts => max (Tree.height t + 1) (TreeList.heightMax ts)
end

/-- Stable insertion (descending by value) used to model the stable
JavaScript sort `.sort(function(a, b) { return b.value - a.value; })`:
an element moves ahead of another exactly when its value is strictly
larger. -/
def insertDesc (c : Tree) : TreeList → TreeList
  | .nil => .cons c .nil
  | .cons d ds =>
    if Tree.value d < Tree.value c then .cons c (.cons d ds)
    else .cons d (insertDesc c ds)

/-- Stable sort of a child list, descending by node value. -/
def sortTL : TreeList → TreeList
  | .nil => .nil
  | .cons c cs => insertDesc c (sortTL cs)

/- The hierarchy after `.sort(function(a, b) { return b.value - a.value; })`:
every child list is sorted descending by value (stably). -/
mutual
def sortTree : Tree → Tree
  | .mk nm s cs => .mk nm s (sortTL (sortEach cs))
def sortEach : TreeList → TreeList
  | .nil => .nil
  | .cons t ts => .cons (sortTree t) (sortEach ts)
end

/-- One node of the partition layout.  `key` is the path of child
indices from the root (it models the identity of the JavaScript node
object), `anc` collects `(key, name)` of every node on the chain from
the root down to this node (it models the parent pointers walked by
`d.ancestors()`), and `x0/x1/y0/y1` are the coordinates assigned by
`d3.partition().size([sx, sy])`. -/
structure PNode where
  key : List ℕ
  anc : List (List ℕ × String)
  name : String
  value : ℚ
  x0 : ℚ
  x1 : ℚ
  y0 : ℚ
  y1 : ℚ
deriving DecidableEq

/-- Depth of a partition node: the length of its access path. -/
def PNode.depth (p : PNode) : ℕ := p.key.length

/- The partition layout (`d3.partition().size([sx, sy])` applied to the
sorted hierarchy), flattened in preorder.  A node at `depth` spans
`y0 = sy * depth / n` to `y1 = sy * (depth + 1) / n` where
`n = root.height + 1`; its children split the parent's `[x0, x1]`
interval proportionally to their values (d3's `treemapDice`: the factor
is `k = (x1 - x0) / value`, or `0` when the node's value is `0`). -/
mutual
def partT (t : Tree) (key : List ℕ) (anc : List (List ℕ × String))
    (x0 x1 sy : ℚ) (n : ℕ) : List PNode :=
  match t with
  | .mk nm _s cs =>
    let v := Tree.value (.mk nm _s cs)
    let me : PNode :=
      { key := key, anc := anc ++ [(key, nm)], name := nm, value := v
        x0 := x0, x1 := x1
        y0 := sy * (key.length : ℚ) / (n : ℚ)
        y1 := sy * ((key.length : ℚ) + 1) / (n : ℚ) }
    let k := if v = 0 then 0 else (x1 - x0) / v
    me :: partTL cs 0 x0 k key (anc ++ [(key, nm)]) sy n
def partTL (ts : TreeList) (i : ℕ) (cursor k : ℚ) (pkey : List ℕ)
    (panc : List (List ℕ × String)) (sy : ℚ) (n : ℕ) : List PNode :=
  match ts with
  | .nil => []
  | .cons c cs =>
    partT c (pkey ++ [i]) panc cursor (cursor + Tree.value c * k) sy n
      ++ partTL cs (i + 1) (cursor + Tree.value c * k) k pkey panc sy n
end

/-- All nodes produced for `plotSunburst`:
`partition(root).descendants()` on the summed, sorted hierarchy, with
partition size `[sx, sy]` (the source uses `sx = 2 * Math.PI` and
`sy = radius * radius`). -/
def allNodes (sx sy : ℚ) (t : Tree) : List PNode :=
  let root := sortTree t
  partT root [] [] 0 sx sy (Tree.height root + 1)

/-- Default `config.cutoff` of `plotSunburst` (0.005). -/
def defaultCutoff : ℚ := 5 / 1000

/-- The nodes that are actually rendered:
`.filter(function(d) { return (d.x1 - d.x0 > config.cutoff); })`. -/
def visibleNodes (cutoff sx sy : ℚ) (t : Tree) : List PNode :=
  (allNodes sx sy t).filter (fun d => decide (cutoff < d.x1 - d.x0))

/-- The value read into the page-global `totalSize`:
`path.datum().value`, i.e. the value of the first rendered node. -/
def totalSizeOf (cutoff sx sy : ℚ) (t : Tree) : Option ℚ :=
  ((visibleNodes cutoff sx sy t).head?).map PNode.value

/-- Keys of `d.ancestors().reverse()` after `shift()` removed the root:
the chain from the root's first-level ancestor down to `d` itself. -/
def seqKeys (d : PNode) : List (List ℕ) := (d.anc.map Prod.fst).drop 1

/-- Datum handed to `updateBreadcrumbs` for one sequence entry: the
node's `data.name` and its `depth`. -/
structure BNode where
  name : String
  depth : ℕ
deriving DecidableEq

/-- The `sequenceArray` of `mouseover`, reduced to the data that
`updateBreadcrumbs` consumes (name and depth of each entry, the root
removed by `shift()`).  The i-th entry of `d.anc` sits at depth i. -/
def seqBNodes (d : PNode) : List BNode :=
  (d.anc.drop 1).map (fun p => { name := p.2, depth := p.1.length })

/-- Opacity assigned to the arc with access path `k` by the `mouseover`
handler for node `d`: first every path is faded to `0.3`, then the arcs
of the ancestor sequence are restored to `1`. -/
def hoverOpacityKey (d : PNode) (k : List ℕ) : ℚ :=
  if k ∈ seqKeys d then 1 else 3 / 10

/-- Opacity of the arc of node `n` after hovering node `d`. -/
def mouseoverOpacity (d n : PNode) : ℚ := hoverOpacityKey d n.key

/-- Floor of the base-10 logarithm: for `x > 0` the unique `e` with
`10 ^ e ≤ x < 10 ^ (e + 1)` (this is the exponent ECMAScript's
`Number.prototype.toPrecision` determines). -/
def floorLog10 (x : ℚ) : ℤ := Int.log 10 x

/-- Significand and exponent chosen by `toPrecision(3)` for `x > 0`:
`m` is the nearest integer to `x * 10 ^ (2 - e)` (ties pick the larger
integer, as in the ECMAScript algorithm); the carry case `m = 1000`
renormalizes to `(100, e + 1)`. -/
def prec3core (x : ℚ) : ℕ × ℤ :=
  let e := floorLog10 x
  let m : ℤ := ⌊x * (10 : ℚ) ^ (2 - e) + 1 / 2⌋
  if m = 1000 then (100, e + 1) else (m.toNat, e)

/-- The numeric value denoted by the string `x.toPrecision(3)`; the
comparison `percentage < 0.1` in `mouseover` coerces the string back to
this number. -/
def prec3Rounded (x : ℚ) : ℚ :=
  if x = 0 then 0
  else if x < 0 then -((((prec3core (-x)).1 : ℚ)) * (10 : ℚ) ^ ((prec3core (-x)).2 - 2))
  else (((prec3core x).1 : ℚ)) * (10 : ℚ) ^ ((prec3core x).2 - 2)

/-- Decimal rendering of the three significant digits `m` (with
`100 ≤ m ≤ 999`) at exponent `e`, following ECMAScript: plain decimal
notation for `-6 ≤ e ≤ 2`, exponent notation otherwise. -/
def prec3Notation (m : ℕ) (e : ℤ) : String :=
  let c1 := Nat.digitChar (m / 100)
  let c2 := Nat.digitChar (m / 10 % 10)
  let c3 := Nat.digitChar (m % 10)
  if e = 2 then String.mk [c1, c2, c3]
  else if e = 1 then String.mk [c1, c2, '.', c3]
  else if e = 0 then String.mk [c1, '.', c2, c3]
  else if -6 ≤ e ∧ e < 0 then
    String.mk ('0' :: '.' :: (List.replicate (-e - 1).toNat '0' ++ [c1, c2, c3]))
  else
    String.mk [c1, '.', c2, c3] ++ "e" ++ (if e < 0 then "-" else "+")
      ++ Nat.repr e.natAbs

/-- The string `x.toPrecision(3)`. -/
def jsToPrecision3 (x : ℚ) : String :=
  if x = 0 then "0.00"
  else if x < 0 then "-" ++ prec3Notation (prec3core (-x)).1 (prec3core (-x)).2
  else prec3Notation (prec3core x).1 (prec3core x).2

/-- The percentage text shown by `mouseover` (lines 187-191 of
`plot-d3-sunburst.js`): `(100 * d.value / totalSize).toPrecision(3)`
with `"%"` appended, except that the handler replaces it by the literal
`"< 0.1%"` when the string, coerced back to a number, is below `0.1`. -/
def percentageDisplay (v total : ℚ) : String :=
  let x := 100 * v / total
  if prec3Rounded x < 1 / 10 then "< 0.1%" else jsToPrecision3 x ++ "%"

/-- Join key of a breadcrumb datum, as computed by
`function(d) { return d.data.name + d.depth; }` (string concatenation of
the name and the decimal rendering of the depth). -/
def bKey (b : BNode) : String := b.name ++ Nat.repr b.depth

/-- One `<g>` element of the breadcrumb trail: the key it was bound
under and the identity of the underlying DOM element. -/
structure BElem where
  key : String
  dom : ℕ
deriving DecidableEq

/-- The keyed data join performed by `updateBreadcrumbs`: each datum of
the new sequence reuses the old element bound to the same key if one
exists (the update selection) and otherwise appends a freshly created
element (the enter selection, drawing element identities from the
counter `fresh`); old elements whose key no longer occurs are removed
(`trail.exit().remove()`).  Returns the new trail (in data order, the
order in which `merge(trail)` positions the elements) and the counter. -/
def joinTrail (old : List BElem) : List BNode → ℕ → List BElem × ℕ
  | [], fresh => ([], fresh)
  | b :: bs, fresh =>
    match old.find? (fun e => e.key == bKey b) with
    | some e =>
      let r := joinTrail old bs fresh
      (e :: r.1, r.2)
    | none =>
      let r := joinTrail old bs (fresh + 1)
      ({ key := bKey b, dom := fresh } :: r.1, r.2)

/-- Primitive effects executed synchronously by the `mouseleave`
handler, in source order. -/
inductive UIOp where
  | hideTrail
  | detachHover
  | startRestore (ms : ℕ)
  | hidePct
  | hideCounts
deriving DecidableEq

/-- Interactive state of one rendered sunburst: whether the `mouseover`
handler is attached to the arcs, visibility of the breadcrumb trail and
of the center labels, whether the restore transition is in flight, and
the opacity of each arc (indexed by its access path). -/
structure UIState where
  hoverBound : Bool
  trailVisible : Bool
  pctVisible : Bool
  countsVisible : Bool
  restoreRunning : Bool
  opacity : List ℕ → ℚ

/-- Effect of one primitive `mouseleave` step on the interactive
state. -/
def applyOp (s : UIState) : UIOp → UIState
  | .hideTrail => { s with trailVisible := false }
  | .detachHover => { s with hoverBound := false }
  | .startRestore _ => { s with restoreRunning := true }
  | .hidePct => { s with pctVisible := false }
  | .hideCounts => { s with countsVisible := false }

/-- The synchronous body of `mouseleave` (lines 215-231): hide the
trail, detach the hover handler from every path, start the 500ms
opacity-restore transition, hide the percentage and counts labels. -/
def mouseleaveScript : List UIOp :=
  [.hideTrail, .detachHover, .startRestore 500, .hidePct, .hideCounts]

/-- State after running the synchronous part of `mouseleave`. -/
def mouseleaveNow (s : UIState) : UIState := mouseleaveScript.foldl applyOp s

/-- The `.on("end", ...)` handler of the restore transition: every arc
has reached full opacity and `mouseover` is re-attached. -/
def restoreEnd (s : UIState) : UIState :=
  { s with opacity := fun _ => 1, restoreRunning := false, hoverBound := true }

/-- Effect of the browser delivering a `mouseover` event for node `d`:
processed only while the handler is attached (`.on("mouseover", null)`
makes it a no-op), in which case the arcs are faded/highlighted and the
trail and labels are shown. -/
def mouseoverEvent (d : PNode) (s : UIState) : UIState :=
  if s.hoverBound then
    { s with trailVisible := true, pctVisible := true, countsVisible := true,
             opacity := hoverOpacityKey d }
  else s

/-- The page: `totalSize = path.datum().value` (line 136) assigns to an
undeclared identifier, i.e. a property of the global object shared by
every `plotSunburst` invocation on the page. -/
structure SunPage where
  totalSize : Option ℚ

/-- One `plotSunburst` call: renders the filtered partition nodes and
overwrites the page-global `totalSize` with the first rendered node's
value. -/
def renderSunburst (_pg : SunPage) (cutoff sx sy : ℚ) (t : Tree) :
    SunPage × List PNode :=
  let ns := visibleNodes cutoff sx sy t
  ({ totalSize := (ns.head?).map PNode.value }, ns)

/-- The percentage text a `mouseover` on node `d` produces, reading the
page-global `totalSize` at event time. -/
def hoverPercentText (pg : SunPage) (d : PNode) : String :=
  percentageDisplay d.value (pg.totalSize.getD 0)

/-- JavaScript's `Math.round`: the nearest integer, ties towards
positive infinity. -/
def jsRound (x : ℚ) : ℤ := ⌊x + 1 / 2⌋

/-- One bar group of `plotHistogram` (the config version in the
repository, used by `examples.html`): its zero-based index, the x
translation `i * step`, the rectangle width
`Math.round(innerWidth / data.length - config.bar_spacing)`, the
rectangle height `innerHeight - config.yscale(d)` and the bin value. -/
structure HistBar where
  index : ℕ
  x : ℚ
  width : ℤ
  height : ℚ
  value : ℚ
deriving DecidableEq

/-- `d3.max`: the maximum of the array, undefined (`none`) when it is
empty. -/
def d3max : List ℚ → Option ℚ
  | [] => none
  | a :: as => match d3max as with
    | none => some a
    | some m => some (max a m)

/-- The default y scale `d3.scaleLinear().domain([0, d3.max(data)])`
with range `[innerHeight, 0]` (nondegenerate domain): linear
interpolation sending `0 ↦ innerHeight` and `dmax ↦ 0`. -/
def yscaleOf (dmax innerHeight v : ℚ) : ℚ :=
  innerHeight + v * (0 - innerHeight) / dmax

/-- The bar groups built by `plotHistogram`, one per datum in order,
the i-th translated to `(i * step, yscale(d))`. -/
def histBars (step : ℚ) (bw : ℤ) (dmax innerHeight : ℚ) :
    ℕ → List ℚ → List HistBar
  | _, [] => []
  | i, d :: ds =>
    { index := i, x := (i : ℚ) * step, width := bw,
      height := innerHeight - yscaleOf dmax innerHeight d, value := d }
      :: histBars step bw dmax innerHeight (i + 1) ds

/-- The bars rendered by `plotHistogram(container, data, config)` (the
version taking a config object, `examples.html`'s entry point):
`step = innerWidth / data.length`,
`barWidth = Math.round(innerWidth / data.length - config.bar_spacing)`,
`dmax = d3.max(data)` (never evaluated when `data` is empty, since no
bar is drawn then). -/
def plotHistogramBars (innerWidth innerHeight bar_spacing : ℚ)
    (data : List ℚ) : List HistBar :=
  let step := innerWidth / (data.length : ℚ)
  let bw := jsRound (innerWidth / (data.length : ℚ) - bar_spacing)
  let dmax := (d3max data).getD 0
  histBars step bw dmax innerHeight 0 data

/-- A JavaScript value, as far as the `typeof`-guard of `plotHistogram`
can observe it. -/
inductive JSValue where
  | undef
  | null
  | bool (b : Bool)
  | num (q : ℚ)
  | str (s : String)
  | fn
  | obj
deriving DecidableEq

/-- JavaScript's `typeof` operator (always a string). -/
def jsTypeof : JSValue → String
  | .undef => "undefined"
  | .null => "object"
  | .bool _ => "boolean"
  | .num _ => "number"
  | .str _ => "string"
  | .fn => "function"
  | .obj => "object"

/-- JavaScript strict equality `===` on primitive observations: values
of different types are never strictly equal; two function or object
references are conservatively treated as distinct. -/
def strictEq : JSValue → JSValue → Bool
  | .undef, .undef => true
  | .null, .null => true
  | .bool a, .bool b => a == b
  | .num a, .num b => a == b
  | .str a, .str b => a == b
  | _, _ => false

/-- The guard `if (typeof(onclick) !== undefined)` of the config-object
`plotHistogram`.  Inside that function no variable `onclick` is in
scope, so the identifier resolves to the page-global `onclick` property
(whatever value it holds); the result of `typeof` is compared with
`!==` against the *value* `undefined`, not against the string
`"undefined"`. -/
def histogramClickGuard (globalOnclick : JSValue) : Bool :=
  !(strictEq (.str (jsTypeof globalOnclick)) .undef)

/-- Configuration slice of `plotHistogram` relevant to clicking:
`defaults.onclick` is `undefined` (`none`). -/
structure HConfig where
  onclick : Option (ℕ → ℚ → Unit) := none

/-- What a click on bar `i` with value `v` does: when the guard bound
the handler, the handler body `config.onclick(i, d)` runs, which throws
a `TypeError` when `config.onclick` is `undefined`. -/
def clickBar (cfg : HConfig) (globalOnclick : JSValue) (i : ℕ) (v : ℚ) :
    Except String Unit :=
  if histogramClickGuard globalOnclick then
    match cfg.onclick with
    | some f => .ok (f i v)
    | none => .error "TypeError: config.onclick is not a function"
  else .ok ()

/-- A sankey node's bounding box as laid out by `d3.sankey()`. -/
structure SkNode where
  x0 : ℚ
  y0 : ℚ
  x1 : ℚ
  y1 : ℚ
deriving DecidableEq

/-- A sankey link: indices of its endpoint nodes and its thickness
(`d.width`). -/
structure SkLink where
  source : ℕ
  target : ℕ
  width : ℚ
deriving DecidableEq

/-- A sankey graph after layout. -/
structure SkGraph where
  nodes : List SkNode
  links : List SkLink
deriving DecidableEq

/-- The `drag` handler body of `plotSankey` (lines 78-85 of the sankey
source): `d.x0 += d3.event.dx; d.x1 += d3.event.dx; d.y0 += d3.event.dy;
d.y1 += d3.event.dy` on the dragged node, leaving every other node and
all link data untouched. -/
def dragNode (g : SkGraph) (i : ℕ) (dx dy : ℚ) : SkGraph :=
  match g.nodes.get? i with
  | none => g
  | some nd =>
    let moved : SkNode :=
      { x0 := nd.x0 + dx, y0 := nd.y0 + dy, x1 := nd.x1 + dx, y1 := nd.y1 + dy }
    { g with nodes := g.nodes.set i moved }

/-- Sum of the widths of a list of links. -/
def sumWidths (ls : List SkLink) : ℚ := ls.foldl (fun a l => a + l.width) 0

/-- Geometry of the path drawn for one link. -/
structure LinkGeom where
  xs : ℚ
  ys : ℚ
  xt : ℚ
  yt : ℚ
  w : ℚ
deriving DecidableEq

/-- Modelled from the spec: the external LayoutEngine collaborator
(`sankey.update(data)` followed by `d3.sankeyLinkHorizontal()`), which
"recomputes link geometry after a node's box is externally mutated".
As in d3-sankey's `computeLinkBreadths`, a link starts at the right
edge of its source box and ends at the left edge of its target box, at
a breadth offset determined by the node's `y0` plus the widths of the
earlier links sharing that endpoint. -/
def linkGeom (g : SkGraph) (idx : ℕ) : Option LinkGeom :=
  match g.links.get? idx with
  | none => none
  | some l =>
    match g.nodes.get? l.source, g.nodes.get? l.target with
    | some s, some tg =>
      some { xs := s.x1
           , ys := s.y0 + sumWidths ((g.links.take idx).filter
               (fun l2 => l2.source == l.source)) + l.width / 2
           , xt := tg.x0
           , yt := tg.y0 + sumWidths ((g.links.take idx).filter
               (fun l2 => l2.target == l.target)) + l.width / 2
           , w := l.width }
    | _, _ => none

/-- The example tree of the specification:
`{name:"root", size:0, children:[{name:"A", size:3},
{name:"B", size:5, children:[{name:"C", size:2}]}]}`. -/
def exTree : Tree :=
  .mk "root" 0
    (.cons (.mk "A" 3 .nil)
      (.cons (.mk "B" 5 (.cons (.mk "C" 2 .nil) .nil)) .nil))

/-- The example tree with every size scaled by 4 (total value 40),
used to exercise the page-global `totalSize`. -/
def exTree4 : Tree :=
  .mk "root" 0
    (.cons (.mk "A" 12 .nil)
      (.cons (.mk "B" 20 (.cons (.mk "C" 8 .nil) .nil)) .nil))

/-- The example tree extended by a size-0 child `D`, whose partition
node has angular span 0 and is therefore cut off. -/
def wTree : Tree :=
  .mk "root" 0
    (.cons (.mk "A" 3 .nil)
      (.cons (.mk "B" 5 (.cons (.mk "C" 2 .nil) .nil))
        (.cons (.mk "D" 0 .nil) .nil)))

/-- The partition nodes of `exTree` at `sx = sy = 1` (preorder; the
sorted child order of the root is `[B, A]` because `value B = 7 >
3 = value A`). -/
def exNodes : List PNode :=
  [ { key := [], anc := [([], "root")], name := "root", value := 10,
      x0 := 0, x1 := 1, y0 := 0, y1 := 1/3 },
    { key := [0], anc := [([], "root"), ([0], "B")], name := "B", value := 7,
      x0 := 0, x1 := 7/10, y0 := 1/3, y1 := 2/3 },
    { key := [0, 0], anc := [([], "root"), ([0], "B"), ([0, 0], "C")],
      name := "C", value := 2, x0 := 0, x1 := 1/5, y0 := 2/3, y1 := 1 },
    { key := [1], anc := [([], "root"), ([1], "A")], name := "A", value := 3,
      x0 := 7/10, x1 := 1, y0 := 1/3, y1 := 2/3 } ]

/-- The `C` node of `exNodes`. -/
def cNodeEx : PNode :=
  { key := [0, 0], anc := [([], "root"), ([0], "B"), ([0, 0], "C")],
    name := "C", value := 2, x0 := 0, x1 := 1/5, y0 := 2/3, y1 := 1 }

/-- The `B` node of `exNodes`. -/
def bNodeEx : PNode :=
  { key := [0], anc := [([], "root"), ([0], "B")], name := "B", value := 7,
    x0 := 0, x1 := 7/10, y0 := 1/3, y1 := 2/3 }

/-- The cut-off `D` node of `wTree` at `sx = sy = 1` (its angular span
is `0`). -/
def dNodeW : PNode :=
  { key := [2], anc := [([], "root"), ([2], "D")], name := "D", value := 0,
    x0 := 1, x1 := 1, y0 := 1/3, y1 := 2/3 }

/-- The example bin values of the specification. -/
def exHistData : List ℚ := [3, 17, 24, 12, 1, 15, 9]

/-- Partition nodes of `wTree` at `sx = sy = 1` (preorder; sorted child
order `[B, A, D]`). -/
def wNodes : List PNode :=
  [ { key := [], anc := [([], "root")], name := "root", value := 10,
      x0 := 0, x1 := 1, y0 := 0, y1 := 1/3 },
    { key := [0], anc := [([], "root"), ([0], "B")], name := "B", value := 7,
      x0 := 0, x1 := 7/10, y0 := 1/3, y1 := 2/3 },
    { key := [0, 0], anc := [([], "root"), ([0], "B"), ([0, 0], "C")],
      name := "C", value := 2, x0 := 0, x1 := 1/5, y0 := 2/3, y1 := 1 },
    { key := [1], anc := [([], "root"), ([1], "A")], name := "A", value := 3,
      x0 := 7/10, x1 := 1, y0 := 1/3, y1 := 2/3 },
    { key := [2], anc := [([], "root"), ([2], "D")], name := "D", value := 0,
      x0 := 1, x1 := 1, y0 := 1/3, y1 := 2/3 } ]

/-- A small laid-out sankey graph: three node boxes in a row and two
links `0 → 1` and `1 → 2`. -/
def skGraphEx : SkGraph :=
  { nodes := [ { x0 := 0, y0 := 0, x1 := 5, y1 := 10 },
               { x0 := 20, y0 := 0, x1 := 25, y1 := 8 },
               { x0 := 40, y0 := 0, x1 := 45, y1 := 6 } ],
    links := [ { source := 0, target := 1, width := 4 },
               { source := 1, target := 2, width := 3 } ] }

/-- Inserting an element keeps the total value of a child list. -/
theorem valueSum_insertDesc (c : Tree) (ts : TreeList) :
    TreeList.valueSum (insertDesc c ts) = Tree.value c + TreeList.valueSum ts := by
  induction ts using insertDesc.induct c with
  | case1 => simp [insertDesc, TreeList.valueSum]
  | case2 d ds h => simp [insertDesc, h, TreeList.valueSum]
  | case3 d ds h ih =>
    simp only [insertDesc, if_neg h, TreeList.valueSum, ih]
    ring

/-- Sorting keeps the total value of a child list. -/
theorem valueSum_sortTL (ts : TreeList) :
    TreeList.valueSum (sortTL ts) = TreeList.valueSum ts := by
  induction ts using sortTL.induct with
  | case1 => rfl
  | case2 t ts ih => simp [sortTL, valueSum_insertDesc, TreeList.valueSum, ih]

/-- Sorting the hierarchy keeps every node value. -/
theorem value_sortTree : ∀ t : Tree, Tree.value (sortTree t) = Tree.value t := by
  have h := @Tree.rec (fun t => Tree.value (sortTree t) = Tree.value t)
    (fun ts => TreeList.valueSum (sortEach ts) = TreeList.valueSum ts)
    (fun nm s cs ih => by
      simp [sortTree, Tree.value, valueSum_sortTL, ih])
    (by simp [sortEach])
    (fun t ts iht ihts => by
      simp [sortEach, TreeList.valueSum, iht, ihts])
  exact h

/-- When the cutoff is below the full angular extent, the root survives
the filter and is the first rendered node, so `path.datum().value` is
the total value of the tree. -/
theorem head_visibleNodes (cutoff sx sy : ℚ) (t : Tree) (h : cutoff < sx) :
    ∃ root rest, visibleNodes cutoff sx sy t = root :: rest
      ∧ root.value = Tree.value t ∧ root.key = [] := by
  cases t with
  | mk nm s cs =>
    simp only [visibleNodes, allNodes, sortTree, partT]
    rw [List.filter_cons]
    simp only [Tree.value, sub_zero, decide_eq_true_eq]
    rw [if_pos (by simpa using h)]
    refine ⟨_, _, rfl, ?_, rfl⟩
    have := value_sortTree (Tree.mk nm s cs)
    simpa [sortTree, Tree.value] using this

/-- The prefixes of `l ++ [a]` are the prefixes of `l`, then `l ++ [a]`
itself. -/
theorem inits_concat {α : Type} (l : List α) (a : α) :
    (l ++ [a]).inits = l.inits ++ [l ++ [a]] := by
  induction l with
  | nil => simp
  | cons x xs ih => simp [List.inits_cons, ih]

/-- Partition invariant: the ancestor chain of every produced node
records exactly the prefixes of the node's access path, in increasing
length (i.e. the parent pointers climb from the node back to the
root). -/
theorem anc_eq_inits : ∀ (sx sy : ℚ) (t : Tree) (p : PNode),
    p ∈ allNodes sx sy t → p.anc.map Prod.fst = p.key.inits := by
  intro sx sy t p hp
  have main := @Tree.rec
    (fun t => ∀ (key : List ℕ) (anc : List (List ℕ × String)) (x0 x1 sy : ℚ) (n : ℕ),
      anc.map Prod.fst ++ [key] = key.inits →
      ∀ p ∈ partT t key anc x0 x1 sy n, p.anc.map Prod.fst = p.key.inits)
    (fun ts => ∀ (i : ℕ) (cursor k : ℚ) (pkey : List ℕ)
      (panc : List (List ℕ × String)) (sy : ℚ) (n : ℕ),
      panc.map Prod.fst = pkey.inits →
      ∀ p ∈ partTL ts i cursor k pkey panc sy n, p.anc.map Prod.fst = p.key.inits)
    (fun nm s cs ih => by
      intro key anc x0 x1 sy n hacc p hp
      rw [partT] at hp
      rcases List.mem_cons.mp hp with h | h
      · subst h
        simpa using hacc
      · exact ih 0 x0 _ key (anc ++ [(key, nm)]) sy n (by simpa using hacc) p h)
    (by intro i cursor k pkey panc sy n hacc p hp; simp [partTL] at hp)
    (fun c cs ihc ihcs => by
      intro i cursor k pkey panc sy n hacc p hp
      rw [partTL] at hp
      rcases List.mem_append.mp hp with h | h
      · refine ihc (pkey ++ [i]) panc cursor _ sy n ?_ p h
        rw [hacc, inits_concat]
      · exact ihcs (i + 1) _ k pkey panc sy n hacc p h)
    (sortTree t)
  have h0 : ([] : List (List ℕ × String)).map Prod.fst ++ [([] : List ℕ)]
      = ([] : List ℕ).inits := by simp
  exact main [] [] 0 sx sy (Tree.height (sortTree t) + 1) h0 p hp

/-- Membership in the breadcrumb key sequence is exactly: a nonempty
prefix of the hovered node's access path (the root, whose path is `[]`,
was removed by `shift()`). -/
theorem mem_seqKeys_iff (d : PNode) (h : d.anc.map Prod.fst = d.key.inits) (k : List ℕ) :
    k ∈ seqKeys d ↔ (k <+: d.key ∧ k ≠ []) := by
  unfold seqKeys
  rw [h]
  cases hk : d.key with
  | nil =>
    simp only [show ([] : List ℕ).inits = [[]] from rfl, List.drop_succ_cons,
      List.drop_nil, List.not_mem_nil, false_iff, not_and]
    intro hpre
    simp [List.prefix_nil.mp hpre]
  | cons x xs =>
    simp only [List.inits_cons, List.drop_succ_cons, List.drop_zero, List.mem_map]
    constructor
    · rintro ⟨p, hp, rfl⟩
      refine ⟨?_, by simp⟩
      exact List.cons_prefix_cons.mpr ⟨rfl, (List.mem_inits _ _).mp hp⟩
    · rintro ⟨hpre, hne⟩
      cases k with
      | nil => exact absurd rfl hne
      | cons y ys =>
        obtain ⟨rfl, hys⟩ := List.cons_prefix_cons.mp hpre
        exact ⟨ys, (List.mem_inits _ _).mpr hys, rfl⟩

/-- The keyed join binds one element per datum. -/
theorem joinTrail_length (old : List BElem) (arr : List BNode) (f : ℕ) :
    (joinTrail old arr f).1.length = arr.length := by
  induction arr generalizing f with
  | nil => simp [joinTrail]
  | cons b bs ih =>
    rw [joinTrail]
    cases old.find? (fun e => e.key == bKey b) with
    | none => simpa [joinTrail] using ih (f + 1)
    | some e => simpa [joinTrail] using ih f

/-- After the join, the trail's element keys are the data keys, in
order. -/
theorem joinTrail_keys (old : List BElem) (arr : List BNode) (f : ℕ) :
    (joinTrail old arr f).1.map BElem.key = arr.map bKey := by
  induction arr generalizing f with
  | nil => simp [joinTrail]
  | cons b bs ih =>
    rw [joinTrail]
    cases hf : old.find? (fun e => e.key == bKey b) with
    | none => simpa [joinTrail] using ih (f + 1)
    | some e =>
      have hkey : e.key = bKey b := by
        have := List.find?_some hf
        simpa using this
      simpa [joinTrail, hkey] using ih f

/-- Joining a trail whose element keys already equal the data keys
(possibly behind irrelevant elements) reuses every element and creates
none: the result is the trail itself and the id counter is untouched. -/
theorem joinTrail_reuse : ∀ (arr : List BNode) (pre s : List BElem) (f : ℕ),
    s.map BElem.key = arr.map bKey →
    (arr.map bKey).Nodup →
    (∀ e ∈ pre, e.key ∉ arr.map bKey) →
    joinTrail (pre ++ s) arr f = (s, f) := by
  intro arr
  induction arr with
  | nil =>
    intro pre s f hkeys _ _
    have hs : s = [] := by
      have hlen := congrArg List.length hkeys
      simpa using List.eq_nil_of_length_eq_zero (by simpa using hlen)
    simp [hs, joinTrail]
  | cons b bs ih =>
    intro pre s f hkeys hnodup hdisj
    cases s with
    | nil => simp at hkeys
    | cons e es =>
      simp only [List.map_cons, List.cons.injEq] at hkeys
      obtain ⟨hek, hesk⟩ := hkeys
      rw [joinTrail]
      have hfind : (pre ++ e :: es).find? (fun x => x.key == bKey b) = some e := by
        rw [List.find?_append]
        have hpre : pre.find? (fun x => x.key == bKey b) = none := by
          rw [List.find?_eq_none]
          intro x hx
          simp only [beq_iff_eq]
          intro hxe
          exact hdisj x hx (by simp [hxe])
        simp [hpre, List.find?_cons, hek]
      rw [hfind]
      have hres : joinTrail (pre ++ e :: es) bs f = (es, f) := by
        have : pre ++ e :: es = (pre ++ [e]) ++ es := by simp
        rw [this]
        refine ih (pre ++ [e]) es f hesk (by simpa using hnodup.of_cons) ?_
        intro x hx
        rcases List.mem_append.mp hx with h | h
        · intro hmem
          exact hdisj x h (by simp [hmem])
        · simp only [List.mem_singleton] at h
          subst h
          rw [hek]
          intro hmem
          have hnd := hnodup
          simp only [List.map_cons, List.nodup_cons] at hnd
          exact hnd.1 hmem
      rw [hres]

/-- Elements whose key is not among the new data keys are removed by
the exit selection. -/
theorem joinTrail_removes (old : List BElem) (arr : List BNode) (f : ℕ)
    (e : BElem) (he : e.key ∉ arr.map bKey) : e ∉ (joinTrail old arr f).1 := by
  intro hmem
  exact he (joinTrail_keys old arr f ▸ List.mem_map_of_mem BElem.key hmem)

/-- The breadcrumb sequence has one entry per ancestor, the root
excluded: its length is the hovered node's depth. -/
theorem seqBNodes_length (d : PNode) (h : d.anc.map Prod.fst = d.key.inits) :
    (seqBNodes d).length = d.key.length := by
  have hlen : d.anc.length = d.key.length + 1 := by
    have := congrArg List.length h
    simpa [List.length_inits] using this
  simp [seqBNodes, hlen]

/-- Uniqueness of the `toPrecision` exponent: bracketing `x` between
consecutive powers of 10 determines `floorLog10 x`. -/
theorem floorLog10_eq (x : ℚ) (e : ℤ) (h0 : 0 < x)
    (h1 : (10:ℚ) ^ e ≤ x) (h2 : x < (10:ℚ) ^ (e + 1)) : floorLog10 x = e := by
  unfold floorLog10
  have hb : 1 < 10 := by norm_num
  have l1 : ((10:ℕ):ℚ) ^ Int.log 10 x ≤ x := Int.zpow_log_le_self hb h0
  have l2 : x < ((10:ℕ):ℚ) ^ (Int.log 10 x + 1) := Int.lt_zpow_succ_log_self hb x
  have hc : ((10:ℕ):ℚ) = (10:ℚ) := by norm_num
  rw [hc] at l1 l2
  by_contra hne
  rcases lt_or_gt_of_ne hne with h | h
  · have hle : ((10:ℚ)) ^ (Int.log 10 x + 1) ≤ (10:ℚ) ^ e :=
      zpow_le_zpow_right₀ (by norm_num) (by omega)
    linarith
  · have hle : ((10:ℚ)) ^ (e + 1) ≤ (10:ℚ) ^ Int.log 10 x :=
      zpow_le_zpow_right₀ (by norm_num) (by omega)
    linarith

/-- Evaluation scheme for `prec3core`: bracketing powers of 10 plus the
value of the floor give the significand/exponent pair. -/
theorem prec3core_eval (x : ℚ) (e m : ℤ) (h0 : 0 < x)
    (h1 : (10:ℚ) ^ e ≤ x) (h2 : x < (10:ℚ) ^ (e + 1))
    (hm : ⌊x * (10 : ℚ) ^ (2 - e) + 1 / 2⌋ = m) (hne : ¬ m = 1000) :
    prec3core x = (m.toNat, e) := by
  simp only [prec3core, floorLog10_eq x e h0 h1 h2, hm, if_neg hne]

/-- `(20).toPrecision(3)` picks significand 200 at exponent 1. -/
theorem prec3core_20 : prec3core 20 = (200, 1) := by
  have := prec3core_eval 20 1 200 (by norm_num) (by norm_num) (by norm_num)
    (by norm_num) (by norm_num)
  simpa using this

/-- `(5).toPrecision(3)` picks significand 500 at exponent 0. -/
theorem prec3core_5 : prec3core 5 = (500, 0) := by
  have := prec3core_eval 5 0 500 (by norm_num) (by norm_num) (by norm_num)
    (by norm_num) (by norm_num)
  simpa using this

/-- `(0.01).toPrecision(3)` picks significand 100 at exponent -2. -/
theorem prec3core_centi : prec3core (1/100) = (100, -2) := by
  have := prec3core_eval (1/100) (-2) 100 (by norm_num) (by norm_num) (by norm_num)
    (by norm_num) (by norm_num)
  simpa using this

/-- `(20).toPrecision(3) === "20.0"`. -/
theorem jsToPrecision3_20 : jsToPrecision3 20 = "20.0" := by
  simp only [jsToPrecision3, prec3core_20, if_neg (by norm_num : ¬ (20:ℚ) = 0),
    if_neg (by norm_num : ¬ (20:ℚ) < 0)]
  decide

/-- `(5).toPrecision(3) === "5.00"`. -/
theorem jsToPrecision3_5 : jsToPrecision3 5 = "5.00" := by
  simp only [jsToPrecision3, prec3core_5, if_neg (by norm_num : ¬ (5:ℚ) = 0),
    if_neg (by norm_num : ¬ (5:ℚ) < 0)]
  decide

/-- The numeric value of the string `(20).toPrecision(3)` is 20. -/
theorem prec3Rounded_20 : prec3Rounded 20 = 20 := by
  simp only [prec3Rounded, prec3core_20, if_neg (by norm_num : ¬ (20:ℚ) = 0),
    if_neg (by norm_num : ¬ (20:ℚ) < 0)]
  norm_num

/-- The numeric value of the string `(5).toPrecision(3)` is 5. -/
theorem prec3Rounded_5 : prec3Rounded 5 = 5 := by
  simp only [prec3Rounded, prec3core_5, if_neg (by norm_num : ¬ (5:ℚ) = 0),
    if_neg (by norm_num : ¬ (5:ℚ) < 0)]
  norm_num

/-- The numeric value of the string `(0.01).toPrecision(3)` is 0.01. -/
theorem prec3Rounded_centi : prec3Rounded (1/100) = 1/100 := by
  simp only [prec3Rounded, prec3core_centi, if_neg (by norm_num : ¬ (1/100:ℚ) = 0),
    if_neg (by norm_num : ¬ (1/100:ℚ) < 0)]
  norm_num

/-- Hovering a value-2 node against total 10 displays "20.0%". -/
theorem percentageDisplay_ex : percentageDisplay 2 10 = "20.0%" := by
  have hx : (100 * 2 / 10 : ℚ) = 20 := by norm_num
  simp only [percentageDisplay, hx, prec3Rounded_20,
    if_neg (by norm_num : ¬ (20:ℚ) < 1/10), jsToPrecision3_20]
  rfl

/-- Hovering a value-2 node against total 40 displays "5.00%". -/
theorem percentageDisplay_cross : percentageDisplay 2 40 = "5.00%" := by
  have hx : (100 * 2 / 40 : ℚ) = 5 := by norm_num
  simp only [percentageDisplay, hx, prec3Rounded_5,
    if_neg (by norm_num : ¬ (5:ℚ) < 1/10), jsToPrecision3_5]
  rfl

/-- Hovering a value-1 node against total 10000 displays the literal
with the space, "< 0.1%". -/
theorem percentageDisplay_small : percentageDisplay 1 10000 = "< 0.1%" := by
  have hx : (100 * 1 / 10000 : ℚ) = 1/100 := by norm_num
  simp only [percentageDisplay, hx, prec3Rounded_centi,
    if_pos (by norm_num : (1/100:ℚ) < 1/10)]

/-- The partition of the example tree at `sx = sy = 1`, evaluated. -/
theorem allNodes_exTree : allNodes 1 1 exTree = exNodes := by
  norm_num [allNodes, exTree, exNodes, partT, partTL, sortTree, sortEach, sortTL,
    insertDesc, Tree.value, TreeList.valueSum, Tree.height, TreeList.heightMax]

/-- Every node of the example partition survives the default cutoff. -/
theorem visibleNodes_exTree : visibleNodes (5/1000) 1 1 exTree = exNodes := by
  norm_num [visibleNodes, allNodes, exTree, exNodes, partT, partTL, sortTree, sortEach,
    sortTL, insertDesc, Tree.value, TreeList.valueSum, Tree.height, TreeList.heightMax,
    List.filter]

/-- The partition of `wTree` at `sx = sy = 1`, evaluated. -/
theorem allNodes_wTree : allNodes 1 1 wTree = wNodes := by
  norm_num [allNodes, wTree, wNodes, partT, partTL, sortTree, sortEach, sortTL,
    insertDesc, Tree.value, TreeList.valueSum, Tree.height, TreeList.heightMax]

/-- One bar group is built per datum. -/
theorem histBars_length (step : ℚ) (bw : ℤ) (dmax iH : ℚ) :
    ∀ (ds : List ℚ) (i : ℕ), (histBars step bw dmax iH i ds).length = ds.length := by
  intro ds
  induction ds with
  | nil => intro i; rfl
  | cons d ds ih => intro i; simp [histBars, ih]

/-- Bar indices are consecutive from the starting index. -/
theorem histBars_map_index (step : ℚ) (bw : ℤ) (dmax iH : ℚ) :
    ∀ (ds : List ℚ) (i : ℕ),
    (histBars step bw dmax iH i ds).map HistBar.index = List.range' i ds.length := by
  intro ds
  induction ds with
  | nil => intro i; rfl
  | cons d ds ih => intro i; simp [histBars, List.range', ih]

/-- Every bar shares the one precomputed rectangle width. -/
theorem histBars_width (step : ℚ) (bw : ℤ) (dmax iH : ℚ) :
    ∀ (ds : List ℚ) (i : ℕ), ∀ b ∈ histBars step bw dmax iH i ds, b.width = bw := by
  intro ds
  induction ds with
  | nil => intro i b hb; simp [histBars] at hb
  | cons d ds ih =>
    intro i b hb
    rcases List.mem_cons.mp hb with h | h
    · subst h; rfl
    · exact ih (i + 1) b h

/-- Every bar's x translation is its index times the step. -/
theorem histBars_x (step : ℚ) (bw : ℤ) (dmax iH : ℚ) :
    ∀ (ds : List ℚ) (i : ℕ), ∀ b ∈ histBars step bw dmax iH i ds,
      ∃ j : ℕ, i ≤ j ∧ b.x = (j : ℚ) * step := by
  intro ds
  induction ds with
  | nil => intro i b hb; simp [histBars] at hb
  | cons d ds ih =>
    intro i b hb
    rcases List.mem_cons.mp hb with h | h
    · subst h; exact ⟨i, le_refl i, rfl⟩
    · obtain ⟨j, hij, hx⟩ := ih (i + 1) b h
      exact ⟨j, by omega, hx⟩

/-- With a positive step the bars are laid out strictly left to
right. -/
theorem histBars_pairwise (step : ℚ) (bw : ℤ) (dmax iH : ℚ) (hstep : 0 < step) :
    ∀ (ds : List ℚ) (i : ℕ),
    (histBars step bw dmax iH i ds).Pairwise (fun b b' => b.x < b'.x) := by
  intro ds
  induction ds with
  | nil => intro i; simp [histBars]
  | cons d ds ih =>
    intro i
    rw [histBars]
    refine List.Pairwise.cons ?_ (ih (i + 1))
    intro b hb
    obtain ⟨j, hij, hx⟩ := histBars_x step bw dmax iH ds (i + 1) b hb
    show (i : ℚ) * step < b.x
    rw [hx]
    have : (i : ℚ) < (j : ℚ) := by exact_mod_cast (by omega : i < j)
    exact mul_lt_mul_of_pos_right this hstep

/-- C1: for every rendered sunburst and every hover on a rendered node
`d`, the `mouseover` handler gives opacity 1 to exactly the arcs on the
root-to-`d` ancestor path (root excluded — its access path is `[]` —
and `d` included, its path being a prefix of itself), and the faded
opacity 0.3 to every other arc of the chart. -/
theorem sunburst_hover_opacity_exact :
    ∀ (t : Tree) (cutoff sx sy : ℚ) (d n : PNode),
    d ∈ visibleNodes cutoff sx sy t → n ∈ visibleNodes cutoff sx sy t →
    (mouseoverOpacity d n = 1 ↔ (n.key <+: d.key ∧ n.key ≠ []))
    ∧ (mouseoverOpacity d n = 3/10 ↔ ¬ (n.key <+: d.key ∧ n.key ≠ [])) := by
  intro t cutoff sx sy d n hd _hn
  have hanc : d.anc.map Prod.fst = d.key.inits :=
    anc_eq_inits sx sy t d (List.mem_of_mem_filter hd)
  have hiff := mem_seqKeys_iff d hanc n.key
  unfold mouseoverOpacity hoverOpacityKey
  by_cases hmem : n.key ∈ seqKeys d
  · rw [if_pos hmem]
    constructor
    · exact ⟨fun _ => hiff.mp hmem, fun _ => rfl⟩
    · constructor
      · intro h; norm_num at h
      · intro hcon; exact absurd (hiff.mp hmem) hcon
  · rw [if_neg hmem]
    constructor
    · constructor
      · intro h; norm_num at h
      · intro hcon; exact absurd (hiff.mpr hcon) hmem
    · exact ⟨fun _ => fun hcon => hmem (hiff.mpr hcon), fun _ => rfl⟩

/-- Witness for C1: in the rendered example chart, hovering `C` gives
the ancestor arc `B` full opacity. -/
theorem sunburst_hover_opacity_exact_witness :
    cNodeEx ∈ visibleNodes (5/1000) 1 1 exTree
    ∧ bNodeEx ∈ visibleNodes (5/1000) 1 1 exTree
    ∧ mouseoverOpacity cNodeEx bNodeEx = 1 := by
  have hc : cNodeEx ∈ visibleNodes (5/1000) 1 1 exTree := by
    rw [visibleNodes_exTree]; simp [exNodes, cNodeEx]
  have hb : bNodeEx ∈ visibleNodes (5/1000) 1 1 exTree := by
    rw [visibleNodes_exTree]; simp [exNodes, bNodeEx]
  refine ⟨hc, hb, ?_⟩
  exact (sunburst_hover_opacity_exact exTree (5/1000) 1 1 cNodeEx bNodeEx hc hb).1.mpr
    (by refine ⟨⟨[0], rfl⟩, by simp [bNodeEx]⟩)

/-- C2 (amended): the hover percentage is `100 * d.value / totalSize`
rendered by `toPrecision(3)`, except that when the string coerced back
to a number is below 0.1 the handler shows the literal `"< 0.1%"` (with
a space after `<`); on the example tree the total value is 10 and
hovering `C` displays "20.0%" with breadcrumb path `[B, C]`. -/
theorem sunburst_percentage_display_amended :
    (∀ v total : ℚ, prec3Rounded (100 * v / total) < 1/10 →
        percentageDisplay v total = "< 0.1%")
    ∧ totalSizeOf (5/1000) 1 1 exTree = some 10
    ∧ (∃ d ∈ visibleNodes (5/1000) 1 1 exTree, d.name = "C" ∧ d.value = 2
        ∧ percentageDisplay d.value 10 = "20.0%"
        ∧ (seqBNodes d).map BNode.name = ["B", "C"]) := by
  refine ⟨?_, ?_, ?_⟩
  · intro v total h
    simp only [percentageDisplay, if_pos h]
  · rw [totalSizeOf, visibleNodes_exTree]
    rfl
  · refine ⟨cNodeEx, ?_, rfl, rfl, percentageDisplay_ex, by decide⟩
    rw [visibleNodes_exTree]; simp [exNodes, cNodeEx]

/-- Witness for C2: a 0.01% contribution is displayed as "< 0.1%". -/
theorem sunburst_percentage_display_amended_witness :
    prec3Rounded (100 * 1 / 10000) < 1/10
    ∧ percentageDisplay 1 10000 = "< 0.1%" := by
  have hx : (100 * 1 / 10000 : ℚ) = 1/100 := by norm_num
  have h : prec3Rounded (100 * 1 / 10000) < 1/10 := by
    rw [hx, prec3Rounded_centi]; norm_num
  exact ⟨h, sunburst_percentage_display_amended.1 1 10000 h⟩

/-- Counterexample for C2 as stated: the sub-0.1 display is the string
"< 0.1%" with a space, not the claimed literal "<0.1%". -/
theorem sunburst_percentage_literal_cex :
    percentageDisplay 1 10000 = "< 0.1%"
    ∧ percentageDisplay 1 10000 ≠ "<0.1%" := by
  refine ⟨percentageDisplay_small, ?_⟩
  rw [percentageDisplay_small]
  decide

/-- C3: after hovering a node of depth k the breadcrumb trail holds
exactly k entries (the ancestor path with the root excluded); the join
is keyed by name-plus-depth, so re-hovering the same path returns the
very same elements and allocates none, and old elements whose key is
not on the current path are removed. -/
theorem sunburst_breadcrumb_trail_keyed :
    ∀ (sx sy : ℚ) (t : Tree) (d : PNode) (old : List BElem) (f f' : ℕ),
    d ∈ allNodes sx sy t →
    ((seqBNodes d).map bKey).Nodup →
    ((joinTrail old (seqBNodes d) f).1.length = d.depth)
    ∧ (joinTrail (joinTrail old (seqBNodes d) f).1 (seqBNodes d) f'
        = ((joinTrail old (seqBNodes d) f).1, f'))
    ∧ (∀ e ∈ old, e.key ∉ (seqBNodes d).map bKey →
        e ∉ (joinTrail old (seqBNodes d) f).1) := by
  intro sx sy t d old f f' hd hnodup
  refine ⟨?_, ?_, ?_⟩
  · rw [joinTrail_length, seqBNodes_length d (anc_eq_inits sx sy t d hd)]
    rfl
  · have := joinTrail_reuse (seqBNodes d) [] (joinTrail old (seqBNodes d) f).1 f'
      (joinTrail_keys old _ f) hnodup (by simp)
    simpa using this
  · intro e _he hk
    exact joinTrail_removes old _ f e hk

/-- Witness for C3: hovering `C` in the example yields a two-entry
trail. -/
theorem sunburst_breadcrumb_trail_keyed_witness :
    cNodeEx ∈ allNodes 1 1 exTree
    ∧ ((seqBNodes cNodeEx).map bKey).Nodup
    ∧ (joinTrail [] (seqBNodes cNodeEx) 0).1.length = cNodeEx.depth := by
  have hm : cNodeEx ∈ allNodes 1 1 exTree := by
    rw [allNodes_exTree]; simp [exNodes, cNodeEx]
  have hnd : ((seqBNodes cNodeEx).map bKey).Nodup := by decide
  exact ⟨hm, hnd, (sunburst_breadcrumb_trail_keyed 1 1 exTree cNodeEx [] 0 5 hm hnd).1⟩

/-- C4 (amended): the histogram draws one bar per bin, indexed 0..n-1
and laid out strictly left to right; each rectangle's width is
`Math.round(innerWidth / n - bar_spacing)` (the source rounds the
claimed value `innerWidth / n - bar_spacing`); on the example data
`[3,17,24,12,1,15,9]` it renders 7 bars and the value-24 bar (index 2)
is strictly the tallest. -/
theorem histogram_bars_amended :
    ∀ (iW iH sp : ℚ) (data : List ℚ), 0 < iW → 0 < iH →
    ((plotHistogramBars iW iH sp data).length = data.length)
    ∧ ((plotHistogramBars iW iH sp data).map HistBar.index = List.range data.length)
    ∧ (∀ b ∈ plotHistogramBars iW iH sp data,
        b.width = jsRound (iW / (data.length : ℚ) - sp))
    ∧ (data ≠ [] → (plotHistogramBars iW iH sp data).Pairwise (fun b b' => b.x < b'.x))
    ∧ (data = exHistData →
        (plotHistogramBars iW iH sp data).length = 7
        ∧ ∃ b ∈ plotHistogramBars iW iH sp data, b.index = 2 ∧ b.value = 24
            ∧ ∀ b' ∈ plotHistogramBars iW iH sp data,
                b'.index ≠ 2 → b'.height < b.height) := by
  intro iW iH sp data hW hH
  refine ⟨histBars_length _ _ _ _ data 0, ?_, ?_, ?_, ?_⟩
  · rw [List.range_eq_range']
    exact histBars_map_index _ _ _ _ data 0
  · intro b hb
    exact histBars_width _ _ _ _ data 0 b hb
  · intro hne
    refine histBars_pairwise _ _ _ _ ?_ data 0
    have hlen : 0 < (data.length : ℚ) := by
      have : data.length ≠ 0 := fun h => hne (List.eq_nil_of_length_eq_zero h)
      exact_mod_cast Nat.pos_of_ne_zero this
    exact div_pos hW hlen
  · intro hdata
    subst hdata
    constructor
    · rfl
    · have hmax : d3max [3, 17, 24, 12, 1, 15, 9] = some 24 := by
        norm_num [d3max]
      simp only [plotHistogramBars, exHistData, hmax, histBars, Option.getD_some]
      refine ⟨_, List.mem_cons_of_mem _ (List.mem_cons_of_mem _ (List.mem_cons_self _ _)),
        rfl, rfl, ?_⟩
      intro b' hb' hidx
      simp only [List.mem_cons, List.not_mem_nil, or_false] at hb'
      rcases hb' with rfl | rfl | rfl | rfl | rfl | rfl | rfl <;>
        first
          | exact absurd rfl hidx
          | (simp only [yscaleOf, HistBar.height]; linarith)

/-- Witness for C4: the example histogram has one bar per bin. -/
theorem histogram_bars_amended_witness :
    (0:ℚ) < 100 ∧ (plotHistogramBars 100 100 1 exHistData).length = exHistData.length :=
  ⟨by norm_num, (histogram_bars_amended 100 100 1 exHistData (by norm_num) (by norm_num)).1⟩

/-- Counterexample for C4 as stated: with innerWidth 100, 7 bins and
bar spacing 1, the rendered rectangle width is the rounded value 13,
not `100 / 7 - 1`. -/
theorem histogram_bar_width_cex :
    ∃ b ∈ plotHistogramBars 100 100 1 exHistData,
      (b.width : ℚ) ≠ 100 / (exHistData.length : ℚ) - 1 := by
  simp only [plotHistogramBars, exHistData, histBars]
  refine ⟨_, List.mem_cons_self _ _, ?_⟩
  norm_num [jsRound]

/-- C5: every partition node whose angular span is below the cutoff is
discarded from rendering, so every rendered arc's span is at least the
cutoff; the default cutoff is 0.005. -/
theorem sunburst_cutoff_filtering :
    ∀ (t : Tree) (cutoff sx sy : ℚ),
    (defaultCutoff = 5/1000)
    ∧ (∀ d ∈ allNodes sx sy t, d.x1 - d.x0 < cutoff → d ∉ visibleNodes cutoff sx sy t)
    ∧ (∀ d ∈ visibleNodes cutoff sx sy t, cutoff ≤ d.x1 - d.x0) := by
  intro t cutoff sx sy
  refine ⟨rfl, ?_, ?_⟩
  · intro d _hd hlt hmem
    have h2 := (List.mem_filter.mp hmem).2
    simp only [decide_eq_true_eq] at h2
    linarith
  · intro d hd
    have h2 := (List.mem_filter.mp hd).2
    simp only [decide_eq_true_eq] at h2
    linarith

/-- Witness for C5: the zero-span node `D` of `wTree` is cut off, and
the rendered node `C` of the example spans at least the cutoff. -/
theorem sunburst_cutoff_filtering_witness :
    dNodeW ∈ allNodes 1 1 wTree
    ∧ dNodeW.x1 - dNodeW.x0 < 5/1000
    ∧ dNodeW ∉ visibleNodes (5/1000) 1 1 wTree
    ∧ (5:ℚ)/1000 ≤ cNodeEx.x1 - cNodeEx.x0 := by
  have hm : dNodeW ∈ allNodes 1 1 wTree := by
    rw [allNodes_wTree]; simp [wNodes, dNodeW]
  have hlt : dNodeW.x1 - dNodeW.x0 < 5/1000 := by norm_num [dNodeW]
  refine ⟨hm, hlt, (sunburst_cutoff_filtering wTree (5/1000) 1 1).2.1 dNodeW hm hlt, ?_⟩
  refine (sunburst_cutoff_filtering exTree (5/1000) 1 1).2.2 cNodeEx ?_
  rw [visibleNodes_exTree]; simp [exNodes, cNodeEx]

/-- C6: the guard `typeof(onclick) !== undefined` compares the string
returned by `typeof` against the value `undefined` and is therefore
true for every possible value of the page-global `onclick`, so the
click handler is always bound; clicking a bar without a configured
callback then calls `config.onclick(i, d)` on `undefined`, which
throws, contradicting the claimed "attached iff provided, otherwise a
click does nothing and does not fail". -/
theorem histogram_onclick_guard_code_bug :
    (∀ g : JSValue, histogramClickGuard g = true)
    ∧ clickBar {} JSValue.null 0 3
        = Except.error "TypeError: config.onclick is not a function"
    ∧ clickBar {} JSValue.undef 0 3
        = Except.error "TypeError: config.onclick is not a function" := by
  refine ⟨?_, rfl, rfl⟩
  intro g
  cases g <;> rfl

/-- C7: dragging sankey node `i` by `(dx, dy)` translates exactly its
bounding box by `(dx, dy)`; the recomputed geometry of links touching
`i` shifts with the moved endpoint, and the geometry of links touching
neither endpoint is unchanged. -/
theorem sankey_drag_translation :
    ∀ (g : SkGraph) (i : ℕ) (dx dy : ℚ) (nd : SkNode), g.nodes.get? i = some nd →
    ((dragNode g i dx dy).nodes.get? i
        = some { x0 := nd.x0 + dx, y0 := nd.y0 + dy, x1 := nd.x1 + dx, y1 := nd.y1 + dy })
    ∧ (∀ j, j ≠ i → (dragNode g i dx dy).nodes.get? j = g.nodes.get? j)
    ∧ ((dragNode g i dx dy).links = g.links)
    ∧ (∀ idx l, g.links.get? idx = some l → l.source ≠ i → l.target ≠ i →
        linkGeom (dragNode g i dx dy) idx = linkGeom g idx)
    ∧ (∀ idx l, g.links.get? idx = some l → l.source = i → l.target ≠ i →
        linkGeom (dragNode g i dx dy) idx = (linkGeom g idx).map
          (fun m => { m with xs := m.xs + dx, ys := m.ys + dy }))
    ∧ (∀ idx l, g.links.get? idx = some l → l.target = i → l.source ≠ i →
        linkGeom (dragNode g i dx dy) idx = (linkGeom g idx).map
          (fun m => { m with xt := m.xt + dx, yt := m.yt + dy })) := by
  intro g i dx dy nd hnd
  set moved : SkNode :=
    { x0 := nd.x0 + dx, y0 := nd.y0 + dy, x1 := nd.x1 + dx, y1 := nd.y1 + dy } with hmv
  have hnodes : (dragNode g i dx dy).nodes = g.nodes.set i moved := by
    rw [dragNode, hnd]
  have hlinks : (dragNode g i dx dy).links = g.links := by
    rw [dragNode, hnd]
  have hgeti : (dragNode g i dx dy).nodes.get? i = some moved := by
    rw [hnodes, List.get?_set_eq, hnd]
    rfl
  have hgetne : ∀ j, j ≠ i → (dragNode g i dx dy).nodes.get? j = g.nodes.get? j := by
    intro j hji
    rw [hnodes, List.get?_set_ne]
    omega
  refine ⟨hgeti, hgetne, hlinks, ?_, ?_, ?_⟩
  · intro idx l hl hs ht
    simp only [linkGeom, hlinks, hl, hgetne l.source hs, hgetne l.target ht]
  · intro idx l hl hs ht
    simp only [linkGeom, hlinks, hl, hgetne l.target ht, hs, hgeti, hnd]
    cases g.nodes.get? l.target with
    | none => rfl
    | some tg =>
      simp only [Option.map_some', Option.some.injEq, LinkGeom.mk.injEq, hmv]
      refine ⟨?_, ?_, ?_, ?_, ?_⟩ <;> first | trivial | ring
  · intro idx l hl ht hs
    simp only [linkGeom, hlinks, hl, hgetne l.source hs, ht, hgeti, hnd]
    cases g.nodes.get? l.source with
    | none => rfl
    | some sg =>
      simp only [Option.map_some', Option.some.injEq, LinkGeom.mk.injEq, hmv]
      refine ⟨?_, ?_, ?_, ?_, ?_⟩ <;> first | trivial | ring

/-- Witness for C7: dragging node 0 of the small graph leaves the
`1 → 2` link's geometry unchanged. -/
theorem sankey_drag_translation_witness :
    skGraphEx.nodes.get? 0 = some { x0 := 0, y0 := 0, x1 := 5, y1 := 10 }
    ∧ linkGeom (dragNode skGraphEx 0 5 7) 1 = linkGeom skGraphEx 1 :=
  ⟨rfl, (sankey_drag_translation skGraphEx 0 5 7 { x0 := 0, y0 := 0, x1 := 5, y1 := 10 }
      rfl).2.2.2.1 1 { source := 1, target := 2, width := 3 } rfl
      (by decide) (by decide)⟩

/-- C8: the synchronous `mouseleave` body detaches the hover handler
before it starts the 500ms restore transition and hides the trail and
both labels; while the transition runs a delivered mouseover is a
no-op; the transition's end handler restores every arc to opacity 1
and only then re-attaches the hover handler. -/
theorem sunburst_mouseleave_sequence :
    ∀ (s : UIState) (d : PNode),
    (mouseleaveScript.indexOf UIOp.detachHover
        < mouseleaveScript.indexOf (UIOp.startRestore 500))
    ∧ ((mouseleaveNow s).hoverBound = false)
    ∧ ((mouseleaveNow s).restoreRunning = true)
    ∧ (mouseoverEvent d (mouseleaveNow s) = mouseleaveNow s)
    ∧ ((restoreEnd (mouseleaveNow s)).opacity = fun _ => 1)
    ∧ ((restoreEnd (mouseleaveNow s)).hoverBound = true)
    ∧ ((mouseleaveNow s).trailVisible = false)
    ∧ ((mouseleaveNow s).pctVisible = false)
    ∧ ((mouseleaveNow s).countsVisible = false) := by
  intro s d
  refine ⟨by decide, rfl, rfl, ?_, rfl, rfl, rfl, rfl, rfl⟩
  rw [mouseoverEvent]
  rfl

/-- C9: the empty bin sequence yields an empty chart — zero bar groups
are created and no part of the bar-building pipeline is reached, so
the render call does not fail. -/
theorem histogram_empty_input_ok :
    ∀ iW iH sp : ℚ, plotHistogramBars iW iH sp [] = [] := by
  intro iW iH sp
  rfl

/-- C10: `totalSize` is a page-global shared by all `plotSunburst`
calls: after a second render, it holds the second tree's total value,
and a hover on any node of the first chart computes its percentage
against that value — concretely, hovering the example chart's `C`
(value 2, own total 10) after a render with total 40 shows "5.00%"
instead of "20.0%". -/
theorem sunburst_totalSize_last_render_wins :
    ∀ (pg : SunPage) (t₁ t₂ : Tree) (cutoff sx sy : ℚ), cutoff < sx →
    ((renderSunburst (renderSunburst pg cutoff sx sy t₁).1 cutoff sx sy t₂).1.totalSize
        = some (Tree.value t₂))
    ∧ (∀ d ∈ (renderSunburst pg cutoff sx sy t₁).2,
        hoverPercentText
            (renderSunburst (renderSunburst pg cutoff sx sy t₁).1 cutoff sx sy t₂).1 d
          = percentageDisplay d.value (Tree.value t₂))
    ∧ (hoverPercentText
          (renderSunburst (renderSunburst pg cutoff sx sy exTree).1 cutoff sx sy exTree4).1
          cNodeEx = "5.00%"
        ∧ percentageDisplay cNodeEx.value (Tree.value exTree) = "20.0%"
        ∧ ("5.00%" : String) ≠ "20.0%") := by
  intro pg t₁ t₂ cutoff sx sy hcs
  have hsome2 : ∀ (q : SunPage) (t : Tree),
      (renderSunburst q cutoff sx sy t).1.totalSize = some (Tree.value t) := by
    intro q t
    obtain ⟨root, rest, heq, hval, _⟩ := head_visibleNodes cutoff sx sy t hcs
    simp [renderSunburst, heq, hval]
  refine ⟨hsome2 _ t₂, ?_, ?_, ?_, by decide⟩
  · intro d _hd
    rw [hoverPercentText, hsome2 _ t₂]
    rfl
  · rw [hoverPercentText, hsome2 _ exTree4]
    have hv4 : Tree.value exTree4 = 40 := by
      norm_num [exTree4, Tree.value, TreeList.valueSum]
    rw [hv4]
    exact percentageDisplay_cross
  · have hv : Tree.value exTree = 10 := by
      norm_num [exTree, Tree.value, TreeList.valueSum]
    rw [hv]
    exact percentageDisplay_ex

/-- Witness for C10: two renders on one page leave the second total in
the global. -/
theorem sunburst_totalSize_last_render_wins_witness :
    ((5:ℚ)/1000 < 1)
    ∧ ((renderSunburst (renderSunburst ⟨none⟩ (5/1000) 1 1 exTree).1
          (5/1000) 1 1 exTree4).1.totalSize = some (Tree.value exTree4)) := by
  have h : (5:ℚ)/1000 < 1 := by norm_num
  exact ⟨h, (sunburst_totalSize_last_render_wins ⟨none⟩ exTree exTree4 (5/1000) 1 1 h).1⟩

end D3
